import Mathlib

/-!
Verification of the AI inline-completion coordination subsystem of the
js-ai-ide repository: the Completion Request Manager and Continuation Filter
(src/src/aiCompletionProvider.js), the Inference Worker Endpoint (aiWorker.js)
and the shared constants (src/src/aiConstants.js).

Strings are modelled as List Char. JavaScript string operations (trimStart,
trimEnd, trim, slice, startsWith, split on whitespace) are translated to
executable Lean functions over List Char. The two regular expressions the code
uses are translated into executable matchers whose structure mirrors the
regexes, with standard ordered-alternation backtracking semantics.
-/

namespace JsAiIde

/-- The ECMAScript white-space set used by String.prototype.trimStart,
trimEnd, trim and by the regex class \s: space, tab, LF, VT, FF, CR, NBSP,
Ogham space mark, the U+2000 to U+200A range, LS, PS, narrow NBSP, medium
mathematical space, ideographic space and BOM. -/
def jsIsSpace (c : Char) : Bool :=
  c = ' ' || c = '\t' || c = '\n' || c = '\x0b' || c = '\x0c' || c = '\r' ||
  c = '\u00A0' || c = '\u1680' || ('\u2000' ≤ c && c ≤ '\u200A') ||
  c = '\u2028' || c = '\u2029' || c = '\u202F' || c = '\u205F' ||
  c = '\u3000' || c = '\uFEFF'

/-- JavaScript String.prototype.trimStart. -/
def jsTrimStart (s : List Char) : List Char := s.dropWhile jsIsSpace

/-- JavaScript String.prototype.trimEnd. -/
def jsTrimEnd (s : List Char) : List Char := (s.reverse.dropWhile jsIsSpace).reverse

/-- JavaScript String.prototype.trim. -/
def jsTrim (s : List Char) : List Char := jsTrimEnd (jsTrimStart s)

/-- Length of the longest common prefix of two sequences. This is the value
the char-by-char loop in filterContinuation (and the word-by-word loop in the
worker fallback extraction) computes: it counts matching positions from index
zero and stops at the first mismatch. -/
def commonPrefixLen {α : Type} [DecidableEq α] : List α → List α → Nat
  | a :: as, b :: bs => if a = b then commonPrefixLen as bs + 1 else 0
  | _, _ => 0

/-- The character class [;})\]] of the trivial-completion regex in
filterContinuation (src/src/aiCompletionProvider.js line 183). -/
def isClosingChar (c : Char) : Bool :=
  c = ';' || c = '\x7d' || c = ')' || c = ']'

mutual

/-- Matcher for `([;})\]]|\n\s*)*` anchored at end of input. One unit of the
regex is a single closing character, or a newline followed by any run of
white-space. Alternation on the head character is deterministic because only
the newline is both a unit start and a white-space character, and both of its
routes continue identically, so this backtracking-free form is equivalent to
the regex. -/
def unitsStar : List Char → Bool
  | [] => true
  | c :: rest =>
    if isClosingChar c then unitsStar rest
    else if c = '\n' then wsThenUnits rest
    else false

/-- Matcher for `\s*([;})\]]|\n\s*)*` anchored at end of input: the state
inside the `\n\s*` unit, where trailing white-space may still be consumed or
the next unit may start. -/
def wsThenUnits : List Char → Bool
  | [] => true
  | c :: rest =>
    if isClosingChar c then unitsStar rest
    else if c = '\n' then wsThenUnits rest
    else jsIsSpace c && wsThenUnits rest

end

/-- Matcher for `([;})\]]|\n\s*)+` anchored at end of input: at least one
unit, then unitsStar. -/
def unitsPlus : List Char → Bool
  | [] => false
  | c :: rest =>
    if isClosingChar c then unitsStar rest
    else if c = '\n' then wsThenUnits rest
    else false

/-- The trivial-completion test /^\s*([;})\]]|\n\s*)+$/ of filterContinuation
(src/src/aiCompletionProvider.js line 183): skip any white-space prefix with
backtracking, then require one or more closing units up to the end. -/
def trivialClosing : List Char → Bool
  | [] => false
  | c :: rest => unitsPlus (c :: rest) || (jsIsSpace c && trivialClosing rest)

/-- filterContinuation(continuation, lookaheadText) from
src/src/aiCompletionProvider.js lines 159 to 188, translated statement by
statement. JavaScript string truthiness makes the first guard an early return
whenever either argument is the empty string. -/
def filterContinuation (continuation lookaheadText : List Char) : List Char :=
  if continuation = [] ∨ lookaheadText = [] then continuation
  else
    let cont := jsTrimStart continuation
    let look := lookaheadText
    let overlap := commonPrefixLen cont look
    if 5 < overlap ∨ (overlap = cont.length ∧ 0 < overlap) then
      jsTrimStart (cont.drop overlap)
    else if trivialClosing cont then
      []
    else
      cont

/-! ## Inference Worker Endpoint (aiWorker.js, src/unnamed/part_002)

The current worker file (the variant that imports aiConstants.js, matching
the provider under src/src). The superseded older variant (src/unnamed/
part_001) differs only in hard-coded constants and in anchoring its newline
collapse at the end of the string; the spec and claims describe the current
variant, which is the one embedded here. -/

mutual

/-- JavaScript String.prototype.split(/\s+/): state inside the current word.
The accumulator holds the reversed characters of the word read so far. -/
def jsSplitWsGo : List Char → List Char → List (List Char)
  | [], acc => [acc.reverse]
  | c :: rest, acc =>
    if jsIsSpace c then acc.reverse :: jsSplitWsSkip rest
    else jsSplitWsGo rest (c :: acc)

/-- JavaScript String.prototype.split(/\s+/): state inside a white-space
separator run. A separator at the very end contributes a final empty field,
as the JavaScript method does. -/
def jsSplitWsSkip : List Char → List (List Char)
  | [] => [[]]
  | c :: rest => if jsIsSpace c then jsSplitWsSkip rest else jsSplitWsGo rest [c]

end

/-- JavaScript s.split(/\s+/). -/
def jsSplitWs (s : List Char) : List (List Char) := jsSplitWsGo s []

/-- Continuation extraction from handleGenerateCompletion
(src/unnamed/part_002 lines 151 to 174): if the generated full text is longer
than the prompt, the continuation is the suffix after the prompt; otherwise a
word-level common-prefix alignment between the trimmed prompt and the trimmed
full text finds where new words start, and the words from there on are joined
with single spaces (empty when no new words exist). -/
def extractRawContinuation (fullText prompt : List Char) : List Char :=
  if prompt.length < fullText.length then
    fullText.drop prompt.length
  else
    let promptWords := jsSplitWs (jsTrim prompt)
    let fullTextWords := jsSplitWs (jsTrim fullText)
    let newContentStart := commonPrefixLen promptWords fullTextWords
    if newContentStart < fullTextWords.length then
      List.intercalate [' '] (fullTextWords.drop newContentStart)
    else
      []

/-- The regex replace(/^\n+/,: drop the leading run of newline characters. -/
def stripLeadingNewlines (s : List Char) : List Char :=
  s.dropWhile (fun c => c = '\n')

/-- Emission of one maximal newline run for the global replace of /\n{3,}/
with two newlines: runs of three or more newlines become exactly two, shorter
runs are kept as they are. -/
def emitNewlineRun (k : Nat) : List Char :=
  List.replicate (if 3 ≤ k then 2 else k) '\n'

/-- Worker loop for the global regex replace(/\n{3,}/g, collapsing every
maximal run of three or more newlines to exactly two. The first argument
counts the newlines of the run currently being read. -/
def collapseNewlinesGo : Nat → List Char → List Char
  | k, [] => emitNewlineRun k
  | k, c :: rest =>
    if c = '\n' then collapseNewlinesGo (k + 1) rest
    else emitNewlineRun k ++ c :: collapseNewlinesGo 0 rest

/-- The global regex replace(/\n{3,}/g, with two newlines. -/
def collapseNewlines (s : List Char) : List Char := collapseNewlinesGo 0 s

/-- The continuation value posted in GENERATION_COMPLETE by
handleGenerateCompletion (src/unnamed/part_002 lines 149 to 199): extraction
of the raw suffix, the clean-up chain replace(/^\n+/,) then
replace(/\n{3,}/g,) then trimEnd(), and finally the lookahead deduplication
that blanks the continuation when its trimmed form and the trimmed lookahead
stand in a prefix relation (either direction). JavaScript truthiness makes
the deduplication guard require both the lookahead and the cleaned
continuation to be non-empty. -/
def handleGenerateCompletionResult (fullText prompt lookaheadText : List Char) : List Char :=
  let continuation0 := extractRawContinuation fullText prompt
  let continuation := jsTrimEnd (collapseNewlines (stripLeadingNewlines continuation0))
  if lookaheadText ≠ [] ∧ continuation ≠ [] then
    let lookaheadTrimmed := jsTrim lookaheadText
    let continuationTrimmed := jsTrim continuation
    if lookaheadTrimmed.isPrefixOf continuationTrimmed then []
    else if continuationTrimmed.isPrefixOf lookaheadTrimmed then []
    else continuation
  else continuation

/-- Messages posted by the worker to the main thread
(src/unnamed/part_002). -/
inductive WMsg where
  | loadingProgress (progress : Nat)
  | modelLoaded
  | modelLoadErrorMsg (error : List Char)
  | generationStart
  | generationComplete (continuation : List Char) (completionId : Nat)
  | completionErrorMsg (error : List Char) (completionId : Nat)
deriving DecidableEq

/-- The module-level mutable state of the worker (src/unnamed/part_002 lines
5 to 8). The generator field records whether the pipeline reference is
non-null. -/
structure WorkerState where
  generator : Bool
  isLoading : Bool
  isLoaded : Bool
  loadingProgress : Nat
deriving DecidableEq

/-- handlePreloadModel (src/unnamed/part_002 lines 39 to 96). The awaited
pipeline call is abstracted by its observable outcome: the list of progress
values its progress callback reports, then either success (the generator is
assigned) or a thrown error message. The interleaved loadingProgress
assignments made by the callback are each overwritten by the final assignment
of the taken branch, which the returned state reflects. -/
def handlePreloadModel (st : WorkerState) (progressEvents : List Nat)
    (loadResult : Except (List Char) Unit) : WorkerState × List WMsg :=
  if st.isLoaded then
    (st, [WMsg.modelLoaded])
  else if st.isLoading then
    (st, [])
  else
    let startMsgs := [WMsg.loadingProgress 0]
    let progressMsgs := progressEvents.map WMsg.loadingProgress
    match loadResult with
    | Except.ok _ =>
      ({ generator := true, isLoading := false, isLoaded := true, loadingProgress := 100 },
       startMsgs ++ progressMsgs ++ [WMsg.modelLoaded])
    | Except.error e =>
      ({ st with isLoading := false, loadingProgress := 0 },
       startMsgs ++ progressMsgs ++ [WMsg.modelLoadErrorMsg e])

/-- handleGenerateCompletion (src/unnamed/part_002 lines 98 to 208). The
awaited generator call is abstracted by its outcome: the generated full text,
or a thrown error message. When the model is not loaded an implicit
handlePreloadModel runs first; if the generator is still null afterwards a
COMPLETION_ERROR with the message Model not loaded is posted; otherwise a
GENERATION_START is posted, then exactly one of GENERATION_COMPLETE or
COMPLETION_ERROR. -/
def handleGenerateCompletion (st : WorkerState) (progressEvents : List Nat)
    (loadResult : Except (List Char) Unit) (genResult : Except (List Char) (List Char))
    (prompt lookaheadText : List Char) (completionId : Nat) : WorkerState × List WMsg :=
  let loaded := if ¬ st.isLoaded then handlePreloadModel st progressEvents loadResult else (st, [])
  let st1 := loaded.1
  let preMsgs := loaded.2
  if ¬ st1.generator then
    (st1, preMsgs ++ [WMsg.completionErrorMsg "Model not loaded".toList completionId])
  else
    match genResult with
    | Except.ok fullText =>
      (st1, preMsgs ++ [WMsg.generationStart,
        WMsg.generationComplete (handleGenerateCompletionResult fullText prompt lookaheadText) completionId])
    | Except.error e =>
      (st1, preMsgs ++ [WMsg.generationStart, WMsg.completionErrorMsg e completionId])

/-- A worker message is terminal for a given request when it is a
GENERATION_COMPLETE or COMPLETION_ERROR carrying that completion id. -/
def isTerminalFor (completionId : Nat) : WMsg → Bool
  | WMsg.generationComplete _ i => i = completionId
  | WMsg.completionErrorMsg _ i => i = completionId
  | _ => false

/-- The initial worker state: generator null, not loading, not loaded,
progress zero. -/
def initialWorkerState : WorkerState :=
  { generator := false, isLoading := false, isLoaded := false, loadingProgress := 0 }

/-! ## Completion Request Manager: preloadModel
(src/src/aiCompletionProvider.js lines 133 to 155) -/

/-- The two loading flags of the AICompletionManager that preloadModel reads
and that the worker message handlers write. -/
structure LoadFlags where
  isLoaded : Bool
  isLoading : Bool
deriving DecidableEq

/-- The body of the checkLoaded polling closure inside preloadModel: resolve
true when isLoaded, resolve false when neither loading nor loaded, otherwise
keep polling (none here). -/
def checkLoadedResult (flags : LoadFlags) : Option Bool :=
  if flags.isLoaded then some true
  else if ¬ flags.isLoading ∧ ¬ flags.isLoaded then some false
  else none

/-- The manager flags once the one in-flight load has settled: the
MODEL_LOADED handler sets isLoaded true and isLoading false; the
MODEL_LOAD_ERROR handler sets isLoading false and leaves isLoaded false
(src/src/aiCompletionProvider.js lines 41 to 56). -/
def settledFlags (loadSucceeds : Bool) : LoadFlags :=
  if loadSucceeds then { isLoaded := true, isLoading := false }
  else { isLoaded := false, isLoading := false }

/-- preloadModel (src/src/aiCompletionProvider.js lines 133 to 155). The
returned pair is the value the returned promise resolves with (none models
the JavaScript null) and whether this call posts PRELOAD_MODEL to the worker,
that is, whether it initiates a load. The asynchronous checkLoaded polling is
abstracted by evaluating its body on the flags left by the one in-flight load
outcome, which is the value the polling loop eventually resolves with. -/
def preloadModel (st : LoadFlags) (loadSucceeds : Bool) : Option Bool × Bool :=
  if st.isLoaded then (some true, false)
  else if st.isLoading then (none, false)
  else (checkLoadedResult (settledFlags loadSucceeds), true)

/-! ## Completion Request Manager: pending-request bookkeeping
(src/src/aiCompletionProvider.js: generateCompletionInWorker lines 190 to
245, worker message handlers lines 67 to 99) -/

/-- One entry of the pendingCompletions map: the completion id (the key) and
the identity of the AbortController stored with the entry. The resolve and
reject callbacks are represented by the settlement events the steps emit. -/
structure PendingEntry where
  cid : Nat
  ctrl : Nat
deriving DecidableEq

/-- Settlements of completion futures observable from
generateCompletionInWorker: resolution with a continuation, rejection with
Completion aborted, rejection with Completion timeout, or rejection with the
error carried by a COMPLETION_ERROR message. -/
inductive MEvent where
  | resolved (cid : Nat) (continuation : List Char)
  | rejectedAborted (cid : Nat)
  | rejectedTimeout (cid : Nat)
  | rejectedFailed (cid : Nat) (msg : List Char)
deriving DecidableEq

/-- The completion id a settlement event belongs to. -/
def MEvent.evCid : MEvent → Nat
  | resolved cid _ => cid
  | rejectedAborted cid => cid
  | rejectedTimeout cid => cid
  | rejectedFailed cid _ => cid

/-- The manager state relevant to completion requests: the pendingCompletions
map (as an ordered list of entries), the currentCompletionAbort reference
(the controller identity, none for null) and a counter supplying the opaque
fresh completion ids that Date.now plus a random suffix produces in the
source. -/
structure MgrState where
  pending : List PendingEntry
  currentAbort : Option Nat
  nextFresh : Nat
deriving DecidableEq

/-- pendingCompletions.delete(cid): remove the entry with the given key. -/
def removePending (pending : List PendingEntry) (cid : Nat) : List PendingEntry :=
  pending.filter (fun e => ¬ e.cid = cid)

/-- The atomic occurrences the manager reacts to: a generateCompletionInWorker
call, a GENERATION_COMPLETE message, a COMPLETION_ERROR message, and the
firing of a request timeout. -/
inductive MCmd where
  | request
  | workerComplete (cid : Nat) (continuation : List Char)
  | workerError (cid : Nat) (msg : List Char)
  | timeoutFire (cid : Nat)

/-- generateCompletionInWorker (src/src/aiCompletionProvider.js lines 190 to
224): when currentCompletionAbort is set, the loop over pendingCompletions
deletes the entry whose controller is currentCompletionAbort and rejects its
promise with Completion aborted; the subsequent controller.abort() finds the
entry already deleted, so the abort listener settles nothing. A fresh entry
with a fresh controller is then inserted and currentCompletionAbort is set to
that controller. The guard on controller.signal.aborted in the executor is
never taken, the controller being freshly constructed. -/
def stepRequest (st : MgrState) : MgrState × List MEvent :=
  let cleaned : List PendingEntry × List MEvent :=
    match st.currentAbort with
    | some ctrl =>
      match st.pending.find? (fun e => e.ctrl == ctrl) with
      | some e => (removePending st.pending e.cid, [MEvent.rejectedAborted e.cid])
      | none => (st.pending, [])
    | none => (st.pending, [])
  let entry : PendingEntry := { cid := st.nextFresh, ctrl := st.nextFresh }
  ({ pending := cleaned.1 ++ [entry], currentAbort := some entry.ctrl,
     nextFresh := st.nextFresh + 1 }, cleaned.2)

/-- The GENERATION_COMPLETE branch of the worker message handler
(src/src/aiCompletionProvider.js lines 67 to 82): when the id is still
pending, delete it and resolve; otherwise do nothing. -/
def stepWorkerComplete (st : MgrState) (cid : Nat) (continuation : List Char) :
    MgrState × List MEvent :=
  match st.pending.find? (fun e => e.cid == cid) with
  | some _ =>
    ({ st with pending := removePending st.pending cid }, [MEvent.resolved cid continuation])
  | none => (st, [])

/-- The COMPLETION_ERROR branch of the worker message handler
(src/src/aiCompletionProvider.js lines 84 to 99): when the id is still
pending, delete it and reject with the carried error; otherwise do
nothing. -/
def stepWorkerError (st : MgrState) (cid : Nat) (msg : List Char) :
    MgrState × List MEvent :=
  match st.pending.find? (fun e => e.cid == cid) with
  | some _ =>
    ({ st with pending := removePending st.pending cid }, [MEvent.rejectedFailed cid msg])
  | none => (st, [])

/-- The timeout callback of generateCompletionInWorker
(src/src/aiCompletionProvider.js lines 227 to 233): when the id is still
pending, delete it, abort the controller (whose listener then finds the entry
deleted and settles nothing) and reject with Completion timeout; otherwise do
nothing. -/
def stepTimeoutFire (st : MgrState) (cid : Nat) : MgrState × List MEvent :=
  match st.pending.find? (fun e => e.cid == cid) with
  | some _ =>
    ({ st with pending := removePending st.pending cid }, [MEvent.rejectedTimeout cid])
  | none => (st, [])

/-- Dispatch one manager occurrence. -/
def stepCmd (st : MgrState) : MCmd → MgrState × List MEvent
  | MCmd.request => stepRequest st
  | MCmd.workerComplete cid k => stepWorkerComplete st cid k
  | MCmd.workerError cid m => stepWorkerError st cid m
  | MCmd.timeoutFire cid => stepTimeoutFire st cid

/-- The manager state at construction: empty pendingCompletions map and null
currentCompletionAbort. -/
def initialMgrState : MgrState :=
  { pending := [], currentAbort := none, nextFresh := 0 }

/-- Run a sequence of occurrences, concatenating the settlement events they
emit into one trace. -/
def execCmds : MgrState → List MCmd → MgrState × List MEvent
  | st, [] => (st, [])
  | st, c :: cs =>
    let r := stepCmd st c
    let rest := execCmds r.1 cs
    (rest.1, r.2 ++ rest.2)

/-- The supersession invariant of the manager bookkeeping: the
pendingCompletions map holds at most one entry, the entry (when present) is
the one whose controller currentCompletionAbort references, and every pending
completion id is below the fresh-id counter. -/
def MgrInv (st : MgrState) : Prop :=
  st.pending.length ≤ 1 ∧
  ∀ e ∈ st.pending, st.currentAbort = some e.ctrl ∧ e.cid < st.nextFresh

/-- A completion id is retired in a manager state when it is below the
fresh-id counter and absent from the pendingCompletions map. Together with
the invariant this is preserved by every later occurrence, and no later
settlement can carry the retired id. -/
def RetiredCid (cid : Nat) (st : MgrState) : Prop :=
  MgrInv st ∧ cid < st.nextFresh ∧ ∀ e ∈ st.pending, e.cid ≠ cid

/-! ## Sanity checks of the embedding on concrete inputs -/

example : filterContinuation "helloWorld".toList "hello there".toList = "helloWorld".toList := by decide

example : filterContinuation ");\n".toList "".toList = ");\n".toList := by decide

example : filterContinuation ");\n".toList "x".toList = [] := by decide

example : filterContinuation "console.log(x);".toList "console.log(x); more".toList = [] := by decide

example : filterContinuation "abcdefg  x".toList "abcdefg y".toList = "x".toList := by decide

example : trivialClosing " ;".toList = true := by decide

example : trivialClosing "; ".toList = false := by decide

example : trivialClosing "\n".toList = true := by decide

example : trivialClosing "".toList = false := by decide

example : trivialClosing "\n \n".toList = true := by decide

example : jsSplitWs "a  b".toList = ["a".toList, "b".toList] := by decide

example : jsSplitWs " a".toList = ["".toList, "a".toList] := by decide

example : jsSplitWs "a ".toList = ["a".toList, "".toList] := by decide

example : jsSplitWs "".toList = ["".toList] := by decide

example : collapseNewlines "a\n\n\n\nb\n\nc".toList = "a\n\nb\n\nc".toList := by decide

example : handleGenerateCompletionResult "abc def".toList "abc".toList " def".toList = [] := by decide

example : handleGenerateCompletionResult "abc def".toList "abc".toList "".toList = " def".toList := by decide

example : handleGenerateCompletionResult "abx\n\n\n\ncd".toList "ab".toList "zq".toList = "x\n\ncd".toList := by decide

example : handleGenerateCompletionResult "ab\n\ncd  ".toList "ab".toList "zq".toList = "cd".toList := by decide

example :
    (handleGenerateCompletion initialWorkerState [10, 60] (Except.ok ())
      (Except.ok "ab cd".toList) "ab".toList "".toList 7).2.countP (isTerminalFor 7) = 1 := by
  decide

example :
    (handleGenerateCompletion initialWorkerState [] (Except.error "net".toList)
      (Except.ok "ab cd".toList) "ab".toList "".toList 7).2.countP (isTerminalFor 7) = 1 := by
  decide

example : preloadModel { isLoaded := true, isLoading := false } false = (some true, false) := by decide

example : preloadModel { isLoaded := false, isLoading := true } true = (none, false) := by decide

example : preloadModel { isLoaded := false, isLoading := false } false = (some false, true) := by decide

example : (execCmds initialMgrState [MCmd.request, MCmd.request]).2 = [MEvent.rejectedAborted 0] := by decide

example : (execCmds initialMgrState [MCmd.request, MCmd.request]).1.pending = [{ cid := 1, ctrl := 1 }] := by decide

example :
    (execCmds initialMgrState
      [MCmd.request, MCmd.timeoutFire 0, MCmd.workerComplete 0 "x".toList]).2 =
      [MEvent.rejectedTimeout 0] := by decide

theorem mgrInv_initial : MgrInv initialMgrState := by
  constructor
  · simp [initialMgrState]
  · intro e he; simp [initialMgrState] at he

theorem inv_pending_cases {st : MgrState} (h : MgrInv st) :
    st.pending = [] ∨ ∃ e, st.pending = [e] := by
  rcases hl : st.pending with _ | ⟨e, rest⟩
  · exact Or.inl rfl
  · rcases rest with _ | ⟨e2, rest2⟩
    · exact Or.inr ⟨e, rfl⟩
    · exfalso
      have hlen := h.1
      rw [hl] at hlen
      simp at hlen

/-- Reduction of the request step when no request is pending. -/
theorem stepRequest_nil {st : MgrState} (hp : st.pending = []) :
    stepCmd st MCmd.request =
      ({ pending := [{ cid := st.nextFresh, ctrl := st.nextFresh }],
         currentAbort := some st.nextFresh, nextFresh := st.nextFresh + 1 }, []) := by
  rcases hca : st.currentAbort with _ | ctrl <;>
    simp [stepCmd, stepRequest, hca, hp]

/-- Reduction of the request step when the invariant holds and one request is
pending: the pending entry is rejected with Completion aborted and replaced
by the fresh entry. -/
theorem stepRequest_single {st : MgrState} {e : PendingEntry} (hp : st.pending = [e])
    (hca : st.currentAbort = some e.ctrl) :
    stepCmd st MCmd.request =
      ({ pending := [{ cid := st.nextFresh, ctrl := st.nextFresh }],
         currentAbort := some st.nextFresh, nextFresh := st.nextFresh + 1 },
       [MEvent.rejectedAborted e.cid]) := by
  have hfind : st.pending.find? (fun x => x.ctrl == e.ctrl) = some e := by
    rw [hp]; simp
  simp [stepCmd, stepRequest, hca, hfind, removePending, hp]

theorem mgrInv_stepCmd {st : MgrState} (c : MCmd) (h : MgrInv st) :
    MgrInv (stepCmd st c).1 := by
  rcases c with _ | ⟨cid, k⟩ | ⟨cid, m⟩ | cid
  · -- request
    rcases inv_pending_cases h with hp | ⟨e, hp⟩
    · rw [stepRequest_nil hp]
      refine ⟨by simp, ?_⟩
      intro e2 he2
      simp at he2
      simp [he2]
    · have hca : st.currentAbort = some e.ctrl :=
        ((h.2 e) (by rw [hp]; exact List.mem_singleton_self e)).1
      rw [stepRequest_single hp hca]
      refine ⟨by simp, ?_⟩
      intro e2 he2
      simp at he2
      simp [he2]
  · -- workerComplete
    rcases hfind : st.pending.find? (fun e => e.cid == cid) with _ | e
    · constructor
      · simpa [stepCmd, stepWorkerComplete, hfind] using h.1
      · intro e2 he2
        simp [stepCmd, stepWorkerComplete, hfind] at he2 ⊢
        exact h.2 e2 he2
    · constructor
      · simp [stepCmd, stepWorkerComplete, hfind, removePending]
        exact le_trans (List.length_filter_le _ _) h.1
      · intro e2 he2
        simp [stepCmd, stepWorkerComplete, hfind, removePending] at he2 ⊢
        exact h.2 e2 he2.1
  · -- workerError
    rcases hfind : st.pending.find? (fun e => e.cid == cid) with _ | e
    · constructor
      · simpa [stepCmd, stepWorkerError, hfind] using h.1
      · intro e2 he2
        simp [stepCmd, stepWorkerError, hfind] at he2 ⊢
        exact h.2 e2 he2
    · constructor
      · simp [stepCmd, stepWorkerError, hfind, removePending]
        exact le_trans (List.length_filter_le _ _) h.1
      · intro e2 he2
        simp [stepCmd, stepWorkerError, hfind, removePending] at he2 ⊢
        exact h.2 e2 he2.1
  · -- timeoutFire
    rcases hfind : st.pending.find? (fun e => e.cid == cid) with _ | e
    · constructor
      · simpa [stepCmd, stepTimeoutFire, hfind] using h.1
      · intro e2 he2
        simp [stepCmd, stepTimeoutFire, hfind] at he2 ⊢
        exact h.2 e2 he2
    · constructor
      · simp [stepCmd, stepTimeoutFire, hfind, removePending]
        exact le_trans (List.length_filter_le _ _) h.1
      · intro e2 he2
        simp [stepCmd, stepTimeoutFire, hfind, removePending] at he2 ⊢
        exact h.2 e2 he2.1

theorem mgrInv_execCmds {st : MgrState} (cmds : List MCmd) (h : MgrInv st) :
    MgrInv (execCmds st cmds).1 := by
  induction cmds generalizing st with
  | nil => exact h
  | cons c cs ih =>
    simp only [execCmds]
    exact ih (mgrInv_stepCmd c h)

theorem stepCmd_nextFresh_le (st : MgrState) (c : MCmd) :
    st.nextFresh ≤ (stepCmd st c).1.nextFresh := by
  rcases c with _ | ⟨cid, k⟩ | ⟨cid, m⟩ | cid
  · exact Nat.le_succ _
  · rcases hfind : st.pending.find? (fun e => e.cid == cid) with _ | e <;>
      simp [stepCmd, stepWorkerComplete, hfind]
  · rcases hfind : st.pending.find? (fun e => e.cid == cid) with _ | e <;>
      simp [stepCmd, stepWorkerError, hfind]
  · rcases hfind : st.pending.find? (fun e => e.cid == cid) with _ | e <;>
      simp [stepCmd, stepTimeoutFire, hfind]

theorem execCmds_nextFresh_le (st : MgrState) (cmds : List MCmd) :
    st.nextFresh ≤ (execCmds st cmds).1.nextFresh := by
  induction cmds generalizing st with
  | nil => exact Nat.le_refl _
  | cons c cs ih =>
    simp only [execCmds]
    exact le_trans (stepCmd_nextFresh_le st c) (ih (stepCmd st c).1)

theorem stepCmd_events_lt {st : MgrState} (c : MCmd) (h : MgrInv st) :
    ∀ ev ∈ (stepCmd st c).2, ev.evCid < st.nextFresh := by
  rcases c with _ | ⟨cid, k⟩ | ⟨cid, m⟩ | cid
  · rcases inv_pending_cases h with hp | ⟨e, hp⟩
    · rw [stepRequest_nil hp]
      intro ev hev
      simp at hev
    · have hca : st.currentAbort = some e.ctrl :=
        ((h.2 e) (by rw [hp]; exact List.mem_singleton_self e)).1
      rw [stepRequest_single hp hca]
      intro ev hev
      simp at hev
      rw [hev]
      exact ((h.2 e) (by rw [hp]; exact List.mem_singleton_self e)).2
  · rcases hfind : st.pending.find? (fun e => e.cid == cid) with _ | e
    · intro ev hev; simp [stepCmd, stepWorkerComplete, hfind] at hev
    · have hmem : e ∈ st.pending := List.mem_of_find?_eq_some hfind
      have hcid : e.cid = cid := by
        have := List.find?_some hfind
        simpa using this
      intro ev hev
      simp [stepCmd, stepWorkerComplete, hfind] at hev
      rw [hev]
      simp [MEvent.evCid]
      rw [← hcid]
      exact (h.2 e hmem).2
  · rcases hfind : st.pending.find? (fun e => e.cid == cid) with _ | e
    · intro ev hev; simp [stepCmd, stepWorkerError, hfind] at hev
    · have hmem : e ∈ st.pending := List.mem_of_find?_eq_some hfind
      have hcid : e.cid = cid := by
        have := List.find?_some hfind
        simpa using this
      intro ev hev
      simp [stepCmd, stepWorkerError, hfind] at hev
      rw [hev]
      simp [MEvent.evCid]
      rw [← hcid]
      exact (h.2 e hmem).2
  · rcases hfind : st.pending.find? (fun e => e.cid == cid) with _ | e
    · intro ev hev; simp [stepCmd, stepTimeoutFire, hfind] at hev
    · have hmem : e ∈ st.pending := List.mem_of_find?_eq_some hfind
      have hcid : e.cid = cid := by
        have := List.find?_some hfind
        simpa using this
      intro ev hev
      simp [stepCmd, stepTimeoutFire, hfind] at hev
      rw [hev]
      simp [MEvent.evCid]
      rw [← hcid]
      exact (h.2 e hmem).2

theorem execCmds_append_state (st : MgrState) (xs ys : List MCmd) :
    (execCmds st (xs ++ ys)).1 = (execCmds (execCmds st xs).1 ys).1 := by
  induction xs generalizing st with
  | nil => simp [execCmds]
  | cons c cs ih => simp only [List.cons_append, execCmds]; exact ih (stepCmd st c).1

theorem execCmds_append_trace (st : MgrState) (xs ys : List MCmd) :
    (execCmds st (xs ++ ys)).2 =
      (execCmds st xs).2 ++ (execCmds (execCmds st xs).1 ys).2 := by
  induction xs generalizing st with
  | nil => simp [execCmds]
  | cons c cs ih =>
    simp only [List.cons_append, execCmds, List.append_assoc]
    exact congrArg (fun t => (stepCmd st c).2 ++ t) (ih (stepCmd st c).1)

theorem execCmds_events_lt {st : MgrState} (cmds : List MCmd) (h : MgrInv st) :
    ∀ ev ∈ (execCmds st cmds).2, ev.evCid < (execCmds st cmds).1.nextFresh := by
  induction cmds generalizing st with
  | nil => intro ev hev; simp [execCmds] at hev
  | cons c cs ih =>
    intro ev hev
    simp only [execCmds, List.mem_append] at hev
    rcases hev with hev | hev
    · calc ev.evCid < st.nextFresh := stepCmd_events_lt c h ev hev
        _ ≤ (stepCmd st c).1.nextFresh := stepCmd_nextFresh_le st c
        _ ≤ (execCmds (stepCmd st c).1 cs).1.nextFresh := execCmds_nextFresh_le _ cs
    · exact ih (mgrInv_stepCmd c h) ev hev

theorem retired_stepCmd {cid : Nat} {st : MgrState} (c : MCmd) (h : RetiredCid cid st) :
    RetiredCid cid (stepCmd st c).1 ∧ ∀ ev ∈ (stepCmd st c).2, ev.evCid ≠ cid := by
  obtain ⟨hinv, hlt, habs⟩ := h
  constructor
  · refine ⟨mgrInv_stepCmd c hinv, lt_of_lt_of_le hlt (stepCmd_nextFresh_le st c), ?_⟩
    intro e he
    rcases c with _ | ⟨cid2, k⟩ | ⟨cid2, m⟩ | cid2
    · rcases inv_pending_cases hinv with hp | ⟨e1, hp⟩
      · rw [stepRequest_nil hp] at he
        simp at he
        rw [he]
        exact Nat.ne_of_gt hlt
      · have hca : st.currentAbort = some e1.ctrl :=
          ((hinv.2 e1) (by rw [hp]; exact List.mem_singleton_self e1)).1
        rw [stepRequest_single hp hca] at he
        simp at he
        rw [he]
        exact Nat.ne_of_gt hlt
    · rcases hfind : st.pending.find? (fun e => e.cid == cid2) with _ | e1 <;>
        simp [stepCmd, stepWorkerComplete, hfind, removePending] at he
      · exact habs e he
      · exact habs e he.1
    · rcases hfind : st.pending.find? (fun e => e.cid == cid2) with _ | e1 <;>
        simp [stepCmd, stepWorkerError, hfind, removePending] at he
      · exact habs e he
      · exact habs e he.1
    · rcases hfind : st.pending.find? (fun e => e.cid == cid2) with _ | e1 <;>
        simp [stepCmd, stepTimeoutFire, hfind, removePending] at he
      · exact habs e he
      · exact habs e he.1
  · intro ev hev
    have hevlt := stepCmd_events_lt c hinv ev hev
    rcases c with _ | ⟨cid2, k⟩ | ⟨cid2, m⟩ | cid2
    · rcases inv_pending_cases hinv with hp | ⟨e1, hp⟩
      · rw [stepRequest_nil hp] at hev
        simp at hev
      · have hca : st.currentAbort = some e1.ctrl :=
          ((hinv.2 e1) (by rw [hp]; exact List.mem_singleton_self e1)).1
        rw [stepRequest_single hp hca] at hev
        simp at hev
        rw [hev]
        exact habs e1 (by rw [hp]; exact List.mem_singleton_self e1)
    · rcases hfind : st.pending.find? (fun e => e.cid == cid2) with _ | e1
      · simp [stepCmd, stepWorkerComplete, hfind] at hev
      · have hmem : e1 ∈ st.pending := List.mem_of_find?_eq_some hfind
        have hcid : e1.cid = cid2 := by simpa using List.find?_some hfind
        simp [stepCmd, stepWorkerComplete, hfind] at hev
        rw [hev]
        simp [MEvent.evCid]
        rw [← hcid]
        exact habs e1 hmem
    · rcases hfind : st.pending.find? (fun e => e.cid == cid2) with _ | e1
      · simp [stepCmd, stepWorkerError, hfind] at hev
      · have hmem : e1 ∈ st.pending := List.mem_of_find?_eq_some hfind
        have hcid : e1.cid = cid2 := by simpa using List.find?_some hfind
        simp [stepCmd, stepWorkerError, hfind] at hev
        rw [hev]
        simp [MEvent.evCid]
        rw [← hcid]
        exact habs e1 hmem
    · rcases hfind : st.pending.find? (fun e => e.cid == cid2) with _ | e1
      · simp [stepCmd, stepTimeoutFire, hfind] at hev
      · have hmem : e1 ∈ st.pending := List.mem_of_find?_eq_some hfind
        have hcid : e1.cid = cid2 := by simpa using List.find?_some hfind
        simp [stepCmd, stepTimeoutFire, hfind] at hev
        rw [hev]
        simp [MEvent.evCid]
        rw [← hcid]
        exact habs e1 hmem

theorem retired_execCmds {cid : Nat} {st : MgrState} (cmds : List MCmd)
    (h : RetiredCid cid st) :
    RetiredCid cid (execCmds st cmds).1 ∧ ∀ ev ∈ (execCmds st cmds).2, ev.evCid ≠ cid := by
  induction cmds generalizing st with
  | nil => exact ⟨h, by intro ev hev; simp [execCmds] at hev⟩
  | cons c cs ih =>
    obtain ⟨h1, h2⟩ := retired_stepCmd c h
    obtain ⟨h3, h4⟩ := ih h1
    refine ⟨h3, ?_⟩
    intro ev hev
    simp only [execCmds, List.mem_append] at hev
    rcases hev with hev | hev
    · exact h2 ev hev
    · exact h4 ev hev

/-! ## Claim theorems -/

/-- Claim C1: over every sequence of manager occurrences from the initial
state, the pendingCompletions map holds at most one entry, and whenever a
generateCompletionInWorker call is issued while an entry is pending, the
trace up to and including that call extends the earlier trace by exactly the
Completion aborted settlement of the superseded id, no event of that trace
carries the superseding id (so the superseded future settles with Aborted
strictly before the superseding future can settle), and the rest of the full
trace follows after it. -/
theorem c1_single_pending_and_abort_before_supersede :
    ∀ (cmds : List MCmd),
      (execCmds initialMgrState cmds).1.pending.length ≤ 1 ∧
      ∀ (pre post : List MCmd), cmds = pre ++ MCmd.request :: post →
        ∀ e ∈ (execCmds initialMgrState pre).1.pending,
          (execCmds initialMgrState (pre ++ [MCmd.request])).2 =
            (execCmds initialMgrState pre).2 ++ [MEvent.rejectedAborted e.cid] ∧
          (∀ ev ∈ (execCmds initialMgrState (pre ++ [MCmd.request])).2,
            ev.evCid ≠ (execCmds initialMgrState pre).1.nextFresh) ∧
          (execCmds initialMgrState cmds).2 =
            (execCmds initialMgrState (pre ++ [MCmd.request])).2 ++
              (execCmds (execCmds initialMgrState (pre ++ [MCmd.request])).1 post).2 := by
  intro cmds
  refine ⟨(mgrInv_execCmds cmds mgrInv_initial).1, ?_⟩
  intro pre post hcmds e he
  have hinv : MgrInv (execCmds initialMgrState pre).1 := mgrInv_execCmds pre mgrInv_initial
  have hp : (execCmds initialMgrState pre).1.pending = [e] := by
    rcases inv_pending_cases hinv with h0 | ⟨e1, h1⟩
    · rw [h0] at he; simp at he
    · rw [h1] at he; simp at he; rw [h1, he]
  have hca : (execCmds initialMgrState pre).1.currentAbort = some e.ctrl :=
    (hinv.2 e (by rw [hp]; exact List.mem_singleton_self e)).1
  have hstep := stepRequest_single hp hca
  have htr : (execCmds initialMgrState (pre ++ [MCmd.request])).2 =
      (execCmds initialMgrState pre).2 ++ [MEvent.rejectedAborted e.cid] := by
    rw [execCmds_append_trace]
    simp [execCmds, hstep]
  refine ⟨htr, ?_, ?_⟩
  · intro ev hev
    rw [htr] at hev
    simp only [List.mem_append, List.mem_singleton] at hev
    rcases hev with hev | hev
    · exact Nat.ne_of_lt (execCmds_events_lt pre mgrInv_initial ev hev)
    · rw [hev]
      exact Nat.ne_of_lt (hinv.2 e (by rw [hp]; exact List.mem_singleton_self e)).2
  · rw [hcmds, List.append_cons pre MCmd.request post]
    exact execCmds_append_trace initialMgrState (pre ++ [MCmd.request]) post

/-- Claim C1 witness: issuing a second request while the first is pending
settles the first with Completion aborted within the superseding call. -/
theorem c1_witness_second_request_aborts_first :
    (execCmds initialMgrState ([MCmd.request] ++ [MCmd.request])).2 =
      (execCmds initialMgrState [MCmd.request]).2 ++ [MEvent.rejectedAborted 0] :=
  ((c1_single_pending_and_abort_before_supersede ([MCmd.request] ++ [MCmd.request])).2
    [MCmd.request] [] rfl { cid := 0, ctrl := 0 } (by decide)).1

/-- Claim C2 counterexample: preloadModel called while a load is already in
progress resolves immediately with null (none), not with the outcome of the
in-flight load, even when that load ends in LOADED. -/
theorem c2_counterexample_preload_while_loading_resolves_null :
    (preloadModel { isLoaded := false, isLoading := true } true).1 ≠ some true ∧
    (preloadModel { isLoaded := false, isLoading := true } true).1 = none := by
  decide

/-- Claim C2 amended: preloadModel resolves immediately with true when the
model is already loaded, resolves with false when the load attempt it itself
initiates fails (and with true when it succeeds), and when called while a
load is already underway it does not start a second load but resolves
immediately with null rather than with the outcome of the in-flight load. -/
theorem c2_amended_preload_behavior :
    (∀ (loading loadSucceeds : Bool),
      preloadModel { isLoaded := true, isLoading := loading } loadSucceeds = (some true, false)) ∧
    (∀ (loadSucceeds : Bool),
      preloadModel { isLoaded := false, isLoading := true } loadSucceeds = (none, false)) ∧
    (∀ (loadSucceeds : Bool),
      preloadModel { isLoaded := false, isLoading := false } loadSucceeds =
        (some loadSucceeds, true)) := by
  refine ⟨fun loading b => rfl, fun b => rfl, fun b => ?_⟩
  cases b <;> rfl

/-- Claim C3: every GENERATE_COMPLETION handled by the worker, from any
worker state and for any outcome of the implicit load and of the generation,
posts exactly one terminal event (GENERATION_COMPLETE or COMPLETION_ERROR)
carrying its completion id. -/
theorem countP_terminal_progressMsgs (cid : Nat) (ns : List Nat) :
    ((ns.map WMsg.loadingProgress).countP (isTerminalFor cid)) = 0 := by
  induction ns with
  | nil => rfl
  | cons n ns ih => simp [List.countP_cons, isTerminalFor, ih]

theorem countP_terminal_handlePreloadModel (st : WorkerState) (pe : List Nat)
    (lr : Except (List Char) Unit) (cid : Nat) :
    ((handlePreloadModel st pe lr).2.countP (isTerminalFor cid)) = 0 := by
  simp only [handlePreloadModel]
  cases hl : st.isLoaded with
  | true => simp [List.countP_cons, isTerminalFor]
  | false =>
    cases hld : st.isLoading with
    | true => simp
    | false =>
      rcases lr with u | e <;>
        simp [List.countP_append, List.countP_cons, isTerminalFor,
          countP_terminal_progressMsgs]

theorem c3_exactly_one_terminal_event :
    ∀ (st : WorkerState) (progressEvents : List Nat)
      (loadResult : Except (List Char) Unit) (genResult : Except (List Char) (List Char))
      (prompt lookaheadText : List Char) (completionId : Nat),
      ((handleGenerateCompletion st progressEvents loadResult genResult
          prompt lookaheadText completionId).2.countP (isTerminalFor completionId)) = 1 := by
  intro st pe lr gr p la cid
  simp only [handleGenerateCompletion]
  cases hl : st.isLoaded with
  | true =>
    cases hgen : st.generator with
    | false => simp [hgen, List.countP_cons, isTerminalFor]
    | true =>
      rcases gr with ft | e <;> simp [hgen, List.countP_cons, isTerminalFor]
  | false =>
    cases hgen : (handlePreloadModel st pe lr).1.generator with
    | false =>
      simp [hgen, List.countP_append, List.countP_cons, isTerminalFor,
        countP_terminal_handlePreloadModel]
    | true =>
      rcases gr with ft | e <;>
        simp [hgen, List.countP_append, List.countP_cons, isTerminalFor,
          countP_terminal_handlePreloadModel]

/-- Claim C4 counterexample: filterContinuation on a continuation made only
of closing punctuation and a newline, with an empty lookahead, does not
return the empty string. -/
theorem c4_counterexample_not_blanked_on_empty_lookahead :
    filterContinuation ");\n".toList "".toList ≠ [] := by decide

/-- Claim C4 amended: filterContinuation on a closing-only continuation with
an empty lookahead returns the continuation unchanged: the early return on an
empty input precedes the trivial-closing rule, so that rule applies only when
both inputs are non-empty. -/
theorem c4_amended_empty_lookahead_returns_unchanged :
    filterContinuation ");\n".toList "".toList = ");\n".toList ∧
    trivialClosing (jsTrimStart ");\n".toList) = true := by decide

/-- Claim C5: the common prefix of helloWorld and the lookahead hello there
has length exactly 5, which does not exceed the threshold 5 and is not the
whole continuation, so filterContinuation returns the continuation
unchanged. -/
theorem c5_threshold_is_strict_at_five :
    commonPrefixLen "helloWorld".toList "hello there".toList = 5 ∧
    filterContinuation "helloWorld".toList "hello there".toList = "helloWorld".toList := by
  decide

/-- Claim C6 counterexample: after stripping the overlapping prefix the code
re-trims the remainder, so the leading space of the remainder is lost and the
indentation-preserving result the claim requires is not returned. -/
theorem c6_counterexample_remainder_is_retrimmed :
    filterContinuation "abcdefg  x".toList "abcdefg y".toList ≠ " x".toList := by decide

/-- Claim C6 amended: for non-empty inputs, filterContinuation first strips
the leading white-space of the continuation, computes the char-by-char common
prefix of that trimmed continuation with the lookahead, and when the overlap
exceeds 5 characters or covers the whole trimmed continuation it returns the
remainder after the overlap with the remainder's own leading white-space
stripped as well (indentation at the start of the suggestion is not
preserved). -/
theorem c6_amended_overlap_strips_and_retrims :
    ∀ (continuation lookaheadText : List Char),
      continuation ≠ [] → lookaheadText ≠ [] →
      (5 < commonPrefixLen (jsTrimStart continuation) lookaheadText ∨
        (commonPrefixLen (jsTrimStart continuation) lookaheadText =
            (jsTrimStart continuation).length ∧
          0 < commonPrefixLen (jsTrimStart continuation) lookaheadText)) →
      filterContinuation continuation lookaheadText =
        jsTrimStart ((jsTrimStart continuation).drop
          (commonPrefixLen (jsTrimStart continuation) lookaheadText)) := by
  intro c l hc hl h
  simp only [filterContinuation]
  rw [if_neg (by simp [hc, hl]), if_pos h]

/-- Claim C6 amended witness: on the inputs of the counterexample the strip
branch fires and the returned remainder has lost its leading space. -/
theorem c6_amended_witness :
    filterContinuation "abcdefg  x".toList "abcdefg y".toList = "x".toList := by
  have h := c6_amended_overlap_strips_and_retrims "abcdefg  x".toList "abcdefg y".toList
    (by decide) (by decide) (by decide)
  rw [h]
  decide

/-- Claim C7 counterexample: with a non-empty lookahead whose trimmed form
equals the trimmed extracted suffix, the worker blanks the continuation
before emitting, so the emitted continuation is not the post-processed raw
suffix. -/
theorem c7_counterexample_dedup_blanks_emission :
    handleGenerateCompletionResult "abc def".toList "abc".toList " def".toList ≠
      jsTrimEnd (collapseNewlines (stripLeadingNewlines
        (extractRawContinuation "abc def".toList "abc".toList))) := by decide

/-- Claim C7 amended: the continuation emitted in GENERATION_COMPLETE is the
raw suffix post-processed by stripping leading newlines, collapsing every run
of three or more newlines to exactly two and trimming trailing white-space,
except that when the lookahead is non-empty, the post-processed continuation
is non-empty and their white-space-trimmed forms stand in a prefix relation
(either direction), the empty string is emitted instead. -/
theorem c7_amended_emission_is_postprocessed_suffix_or_blank :
    ∀ (fullText prompt lookaheadText : List Char),
      handleGenerateCompletionResult fullText prompt lookaheadText =
        (let c := jsTrimEnd (collapseNewlines (stripLeadingNewlines
            (extractRawContinuation fullText prompt)))
         if lookaheadText ≠ [] ∧ c ≠ [] ∧
             ((jsTrim lookaheadText).isPrefixOf (jsTrim c) ||
              (jsTrim c).isPrefixOf (jsTrim lookaheadText)) then
           ([] : List Char)
         else c) := by
  intro ft p la
  simp only [handleGenerateCompletionResult]
  by_cases hla : la = [] <;>
    by_cases hcc : jsTrimEnd (collapseNewlines (stripLeadingNewlines
      (extractRawContinuation ft p))) = [] <;>
    by_cases h1 : (jsTrim la).isPrefixOf (jsTrim (jsTrimEnd (collapseNewlines
      (stripLeadingNewlines (extractRawContinuation ft p))))) = true <;>
    by_cases h2 : (jsTrim (jsTrimEnd (collapseNewlines (stripLeadingNewlines
      (extractRawContinuation ft p))))).isPrefixOf (jsTrim la) = true <;>
    simp [hla, hcc, h1, h2]

/-- Claim C8: filterContinuation is a pure deterministic function (equal
inputs give equal outputs) and with an empty lookahead it returns any
continuation unchanged. -/
theorem c8_deterministic_and_identity_on_empty_lookahead :
    (∀ (c1 c2 l1 l2 : List Char), c1 = c2 → l1 = l2 →
      filterContinuation c1 l1 = filterContinuation c2 l2) ∧
    ∀ (c : List Char), filterContinuation c [] = c := by
  refine ⟨?_, ?_⟩
  · intro c1 c2 l1 l2 hc hl
    rw [hc, hl]
  · intro c
    simp [filterContinuation]

/-- Claim C8 witness: determinism and the empty-lookahead identity at
concrete inputs. -/
theorem c8_witness_concrete :
    filterContinuation "ab".toList "cd".toList = filterContinuation "ab".toList "cd".toList ∧
    filterContinuation ");x".toList [] = ");x".toList :=
  ⟨(c8_deterministic_and_identity_on_empty_lookahead).1 "ab".toList "ab".toList
      "cd".toList "cd".toList rfl rfl,
    (c8_deterministic_and_identity_on_empty_lookahead).2 ");x".toList⟩

/-- Claim C9: when a pending request times out, the manager rejects exactly
that request with Completion timeout, removes its id from the
pendingCompletions map, and no later occurrence — including late
GENERATION_COMPLETE or COMPLETION_ERROR messages bearing that id — produces
any further settlement for it (the handlers find the id absent and do
nothing, so there is no double settlement and no failure). -/
theorem c9_timeout_retires_correlation_id :
    ∀ (pre : List MCmd) (cid : Nat),
      (∃ e ∈ (execCmds initialMgrState pre).1.pending, e.cid = cid) →
      (stepCmd (execCmds initialMgrState pre).1 (MCmd.timeoutFire cid)).2 =
        [MEvent.rejectedTimeout cid] ∧
      (∀ e ∈ (stepCmd (execCmds initialMgrState pre).1 (MCmd.timeoutFire cid)).1.pending,
        e.cid ≠ cid) ∧
      ∀ (lateCmds : List MCmd),
        ∀ ev ∈ (execCmds
            (stepCmd (execCmds initialMgrState pre).1 (MCmd.timeoutFire cid)).1 lateCmds).2,
          ev.evCid ≠ cid := by
  intro pre cid hex
  obtain ⟨e, he, hecid⟩ := hex
  have hinv : MgrInv (execCmds initialMgrState pre).1 := mgrInv_execCmds pre mgrInv_initial
  have hfind : (execCmds initialMgrState pre).1.pending.find? (fun x => x.cid == cid) =
      some e := by
    have hp : (execCmds initialMgrState pre).1.pending = [e] := by
      rcases inv_pending_cases hinv with h0 | ⟨e1, h1⟩
      · rw [h0] at he; simp at he
      · rw [h1] at he; simp at he; rw [h1, he]
    rw [hp]
    simp [hecid]
  have habs : ∀ e2 ∈ (stepCmd (execCmds initialMgrState pre).1
      (MCmd.timeoutFire cid)).1.pending, e2.cid ≠ cid := by
    intro e2 he2
    simp [stepCmd, stepTimeoutFire, hfind, removePending] at he2
    exact he2.2
  refine ⟨by simp [stepCmd, stepTimeoutFire, hfind], habs, ?_⟩
  intro lateCmds
  have hret : RetiredCid cid
      (stepCmd (execCmds initialMgrState pre).1 (MCmd.timeoutFire cid)).1 := by
    refine ⟨mgrInv_stepCmd _ hinv, ?_, habs⟩
    calc cid = e.cid := hecid.symm
      _ < (execCmds initialMgrState pre).1.nextFresh := (hinv.2 e he).2
      _ ≤ _ := stepCmd_nextFresh_le _ _
  exact (retired_execCmds lateCmds hret).2

/-- Claim C9 witness: the sole pending request, timed out, settles with
Completion timeout, and the late terminal messages for its id settle
nothing. -/
theorem c9_witness_timeout_then_late_messages :
    (stepCmd (execCmds initialMgrState [MCmd.request]).1 (MCmd.timeoutFire 0)).2 =
      [MEvent.rejectedTimeout 0] :=
  (c9_timeout_retires_correlation_id [MCmd.request] 0
    ⟨{ cid := 0, ctrl := 0 }, by decide, rfl⟩).1

/-- Claim C10: when the lookahead is non-empty, the extracted post-processed
continuation is non-empty, and the white-space-trimmed continuation and
lookahead stand in a prefix relation in either direction, the worker emits
the empty continuation: endpoint-side deduplication in addition to the
manager-side filter. -/
theorem c10_worker_lookahead_dedup :
    ∀ (fullText prompt lookaheadText : List Char),
      lookaheadText ≠ [] →
      jsTrimEnd (collapseNewlines (stripLeadingNewlines
        (extractRawContinuation fullText prompt))) ≠ [] →
      ((jsTrim (jsTrimEnd (collapseNewlines (stripLeadingNewlines
          (extractRawContinuation fullText prompt))))).isPrefixOf (jsTrim lookaheadText) ∨
        (jsTrim lookaheadText).isPrefixOf (jsTrim (jsTrimEnd (collapseNewlines
          (stripLeadingNewlines (extractRawContinuation fullText prompt)))))) →
      handleGenerateCompletionResult fullText prompt lookaheadText = [] := by
  intro ft p la hla hc hrel
  simp only [handleGenerateCompletionResult]
  rw [if_pos ⟨hla, hc⟩]
  by_cases h1 : (jsTrim la).isPrefixOf (jsTrim (jsTrimEnd (collapseNewlines
      (stripLeadingNewlines (extractRawContinuation ft p))))) = true
  · rw [if_pos h1]
  · rw [if_neg h1]
    rcases hrel with h | h
    · rw [if_pos h]
    · exact absurd h h1

/-- Claim C10 witness: a continuation equal (after trimming) to the lookahead
is blanked by the worker. -/
theorem c10_witness_continuation_equal_lookahead_blanked :
    handleGenerateCompletionResult "abc def".toList "abc".toList " def".toList = [] :=
  c10_worker_lookahead_dedup "abc def".toList "abc".toList " def".toList
    (by decide) (by decide) (by decide)

end JsAiIde
